import Mathlib

/-!
Verification of the rebalancing decision engine of the 3commas_bot repository.

The Python source is shallowly embedded: prices are exact rationals, Python
dicts become association lists, and raisable code returns `Except PyErr`.
The two implementations of the decision rules are both embedded:
`calculate_changes` / `find_best_swap` from `src/bot.py` and
`should_swap` / `update_after_swap` from `src/trading/enhanced_logic.py`.
-/

/-- Python exceptions that the embedded code can raise. -/
inductive PyErr where
  | zeroDivisionError : PyErr
  | keyError : String → PyErr
  | nameError : String → PyErr
  | attributeError : String → PyErr
deriving DecidableEq, Repr

/-- A Python dict mapping coin symbols to prices, as an association list. -/
abbrev PriceMap := List (String × ℚ)

/-- Dict lookup returning `none` for a missing key (Python `d.get(k)` / `k in d`). -/
def plookup (m : PriceMap) (k : String) : Option ℚ :=
  match m with
  | [] => none
  | (k1, v) :: rest => if k = k1 then some v else plookup rest k

/-- Python division: raises `ZeroDivisionError` on a zero denominator. -/
def divE (x y : ℚ) : Except PyErr ℚ :=
  if y = 0 then .error .zeroDivisionError else .ok (x / y)

/-! ## Embedding of `src/bot.py` -/

/-- A trade row of the `Trade` table (`src/api/database.py`). -/
structure TradeRec where
  trade_id : Nat
  from_coin : String
  to_coin : String
  amount : ℚ
  price_change : ℚ
  status : String
deriving DecidableEq, Repr

/-- The in-memory fields of `Bot` (`src/bot.py`) used by the decision code. -/
structure BotPy where
  coins : List String
  threshold : ℚ
  current_coin : Option String
  initial_coin : Option String
  last_prices : PriceMap
  active_trade_id : Option Nat
deriving DecidableEq, Repr

/-- Persistent state touched by one `CryptoRebalancer.check_and_rebalance_bot` cycle:
the bot row, the `Trade` rows, the `CoinUnitTracker` rows and the
`PriceHistory` append log. -/
structure RebState where
  bot : BotPy
  trades : List TradeRec
  unit_tracker : List (String × ℚ)
  price_history : List (String × ℚ)
deriving DecidableEq, Repr

/-- The `for coin in self.coins` loop of `Bot.calculate_changes` (bot.py:145-151).
Each iteration indexes both price dicts (`KeyError` when missing) and performs
three divisions (`ZeroDivisionError` on a zero denominator). -/
def calcChangesLoop (coins : List String) (cc : String) (cur lastp : PriceMap)
    (ccp lcp : ℚ) : Except PyErr (List (String × ℚ)) :=
  match coins with
  | [] => .ok []
  | c :: rest =>
    if c = cc then calcChangesLoop rest cc cur lastp ccp lcp
    else
      match plookup cur c with
      | none => .error (.keyError c)
      | some cp =>
        match divE cp ccp with
        | .error e => .error e
        | .ok cr =>
          match plookup lastp c with
          | none => .error (.keyError c)
          | some lp =>
            match divE lp lcp with
            | .error e => .error e
            | .ok lr =>
              match divE (cr - lr) lr with
              | .error e => .error e
              | .ok ch =>
                match calcChangesLoop rest cc cur lastp ccp lcp with
                | .error e => .error e
                | .ok tail => .ok ((c, ch) :: tail)

/-- `Bot.calculate_changes` (bot.py:117-154). Returns `{}` when the current
coin is unset, when there are no last prices, or when the current coin is
missing from either price map; otherwise runs the per-coin loop. -/
def calculate_changes (b : BotPy) (current_prices : PriceMap) :
    Except PyErr (List (String × ℚ)) :=
  match b.current_coin with
  | none => .ok []
  | some cc =>
    if b.last_prices.isEmpty then .ok []
    else
      match plookup current_prices cc with
      | none => .ok []
      | some ccp =>
        match plookup b.last_prices cc with
        | none => .ok []
        | some lcp => calcChangesLoop b.coins cc current_prices b.last_prices ccp lcp

/-- The candidate scan of `Bot.find_best_swap` (bot.py:208-217):
`best_change` starts at `-inf`, a candidate wins when
`change > self.threshold and change > best_change`. -/
def findBestLoop (items : List (String × ℚ)) (threshold : ℚ)
    (best : Option (String × ℚ)) : Option (String × ℚ) :=
  match items with
  | [] => best
  | (c, ch) :: rest =>
    match best with
    | none =>
      if ch > threshold then findBestLoop rest threshold (some (c, ch))
      else findBestLoop rest threshold none
    | some (bc, bch) =>
      if ch > threshold ∧ ch > bch then findBestLoop rest threshold (some (c, ch))
      else findBestLoop rest threshold (some (bc, bch))

/-- `Bot.find_best_swap` (bot.py:189-224). -/
def find_best_swap (b : BotPy) (changes : List (String × ℚ)) : Option String :=
  match b.current_coin with
  | none => none
  | some _ =>
    if b.last_prices.isEmpty then none
    else if changes.isEmpty then none
    else (findBestLoop changes b.threshold none).map Prod.fst

/-- `Bot.estimate_units_to_receive` (bot.py:258-291). After the price-presence
guard the body references the unbound name `status` on every remaining path
(bot.py:269 when a trade row matches the active trade id, bot.py:288
otherwise), so it raises `NameError` instead of returning an estimate. -/
def estimate_units_to_receive (b : BotPy) (trades : List TradeRec)
    (from_coin to_coin : String) (amount : ℚ) (current_prices : PriceMap) :
    Except PyErr ℚ :=
  match plookup current_prices from_coin, plookup current_prices to_coin with
  | some _, some _ =>
    match trades.find? (fun t => decide (some t.trade_id = b.active_trade_id)) with
    | some _ => .error (.nameError "status")
    | none => .error (.nameError "status")
  | _, _ => .ok 0

/-- `Bot.update_prices` (bot.py:90-115) with `store_as_last = True`, as called
from the cycle: append the observations to the history and replace
`last_prices` with the fetched map. -/
def update_prices (s : RebState) (prices : PriceMap) : RebState :=
  { s with bot := { s.bot with last_prices := prices },
           price_history := s.price_history ++ prices }

/-- The initial-coin block of the cycle (bot.py:394-398). -/
def setInitialCoin (s : RebState) : RebState :=
  match s.bot.current_coin, s.bot.initial_coin with
  | none, some ic => { s with bot := { s.bot with current_coin := some ic } }
  | _, _ => s

/-- The evaluation-and-trade part of the cycle (bot.py:400-465), run on the
state already holding the fetched prices. `gateway` is the outcome of
`three_commas.create_smart_trade`: an exception (caught at bot.py:429-431),
no trade id (bot.py:460-461), or a trade id (bot.py:432-459). -/
def evalAndTrade (s2 : RebState) (fetched : PriceMap)
    (gateway : Except PyErr (Option Nat)) : RebState × Option PyErr :=
  match s2.bot.current_coin with
  | none => (s2, none)
  | some _ =>
    match calculate_changes s2.bot fetched with
    | .error e => (s2, some e)
    | .ok changes =>
      if changes.isEmpty then (s2, none)
      else
        match find_best_swap s2.bot changes with
        | none => (s2, none)
        | some target =>
          match s2.bot.active_trade_id with
          | some _ => (s2, none)
          | none =>
            match gateway with
            | .error _ => (s2, none)
            | .ok none => (s2, none)
            | .ok (some tid) =>
              let tr : TradeRec :=
                { trade_id := tid,
                  from_coin := (s2.bot.current_coin).getD "",
                  to_coin := target,
                  amount := 1,
                  price_change := (plookup changes target).getD 0,
                  status := "pending" }
              ({ s2 with
                  trades := s2.trades ++ [tr],
                  bot := { s2.bot with active_trade_id := some tid,
                                       current_coin := some target } },
               none)

/-- `CryptoRebalancer.check_and_rebalance_bot` (bot.py:367-467).
`due` is the value of `bot.should_check()` and `fetched` the price map
returned by `bot.get_prices()`. The second component is the exception caught
by the per-bot handler (bot.py:466), `none` when the cycle did not raise. -/
def check_and_rebalance_bot (s : RebState) (due : Bool) (fetched : PriceMap)
    (gateway : Except PyErr (Option Nat)) : RebState × Option PyErr :=
  if due = false then (s, none)
  else
    match s.bot.active_trade_id with
    | some _ =>
      -- bot.py:377 calls `bot.check_active_trade()`; class `Bot` defines no
      -- such method, so the call raises `AttributeError`, caught at bot.py:466.
      (s, some (.attributeError "check_active_trade"))
    | none =>
      if fetched.isEmpty then (s, none)
      else evalAndTrade (setInitialCoin (update_prices s fetched)) fetched gateway

/-! ## Embedding of `src/trading/enhanced_logic.py` -/

/-- A `CoinSnapshot` row (`src/api/database.py`). -/
structure Snapshot where
  coin : String
  initial_price : ℚ
  units_held : ℚ
  eth_equivalent_value : ℚ
  was_ever_held : Bool
  max_units_reached : ℚ
deriving DecidableEq, Repr

/-- The `Bot` row fields read by `EnhancedTradingLogic`. -/
structure EBot where
  current_coin : Option String
  reference_coin : Option String
  threshold_percentage : ℚ
  global_threshold_percentage : ℚ
  global_peak_value : ℚ
  min_acceptable_value : ℚ
deriving DecidableEq, Repr

/-- The persistent state an `EnhancedTradingLogic` instance works on. -/
structure EState where
  bot : EBot
  coins : List String
  snapshots : List Snapshot
deriving DecidableEq, Repr

/-- `self.bot.reference_coin or "ETH"`. -/
def refCoinOf (b : EBot) : String := b.reference_coin.getD "ETH"

/-- The `CoinSnapshot` query filtered by coin (first matching row). -/
def findSnap (snaps : List Snapshot) (c : String) : Option Snapshot :=
  match snaps with
  | [] => none
  | s :: rest => if s.coin = c then some s else findSnap rest c

/-- ORM row update of the first snapshot whose coin matches. -/
def setSnap (snaps : List Snapshot) (c : String) (f : Snapshot → Snapshot) :
    List Snapshot :=
  match snaps with
  | [] => []
  | s :: rest => if s.coin = c then f s :: rest else s :: setSnap rest c f

/-- The deviation computation wrapped by `try`/`except ZeroDivisionError`
(enhanced_logic.py:192-197):
`((prices[coin] / target.initial_price) / (current_price / current.initial_price)) - 1.0`. -/
def deviationCalc (pc tInit cp cInit : ℚ) : Except PyErr ℚ :=
  match divE pc tInit with
  | .error e => .error e
  | .ok a =>
    match divE cp cInit with
    | .error e => .error e
    | .ok b =>
      match divE a b with
      | .error e => .error e
      | .ok d => .ok (d - 1)

/-- The candidate loop of `EnhancedTradingLogic.should_swap`
(enhanced_logic.py:172-231): skip the held coin, coins without a price or a
snapshot, deviation failures, and candidates failing Rule 1, Rule 2 or
Rule 3; keep the candidate with the most negative deviation. -/
def eSwapLoop (coins : List String) (prices : PriceMap) (cc : String)
    (cp cInit rp cv threshold minAcc : ℚ) (snaps : List Snapshot)
    (best : Option (String × ℚ)) : Except PyErr (Option (String × ℚ)) :=
  match coins with
  | [] => .ok best
  | coin :: rest =>
    if coin = cc then eSwapLoop rest prices cc cp cInit rp cv threshold minAcc snaps best
    else
      match plookup prices coin with
      | none => eSwapLoop rest prices cc cp cInit rp cv threshold minAcc snaps best
      | some pc =>
        match findSnap snaps coin with
        | none => eSwapLoop rest prices cc cp cInit rp cv threshold minAcc snaps best
        | some tsnap =>
          match deviationCalc pc tsnap.initial_price cp cInit with
          | .error _ =>
            -- `except ZeroDivisionError: continue` (the only error divE raises)
            eSwapLoop rest prices cc cp cInit rp cv threshold minAcc snaps best
          | .ok dev =>
            if dev ≥ threshold then
              eSwapLoop rest prices cc cp cInit rp cv threshold minAcc snaps best
            else
              match divE (cv * rp) pc with
              | .error e => .error e
              | .ok estU =>
                if tsnap.was_ever_held = true ∧ estU ≤ tsnap.max_units_reached then
                  eSwapLoop rest prices cc cp cInit rp cv threshold minAcc snaps best
                else
                  match divE (estU * pc) rp with
                  | .error e => .error e
                  | .ok q =>
                    if q * (99 / 100) < minAcc then
                      eSwapLoop rest prices cc cp cInit rp cv threshold minAcc snaps best
                    else
                      match best with
                      | none =>
                        eSwapLoop rest prices cc cp cInit rp cv threshold minAcc snaps
                          (some (coin, dev))
                      | some (bc, bd) =>
                        if dev < bd then
                          eSwapLoop rest prices cc cp cInit rp cv threshold minAcc snaps
                            (some (coin, dev))
                        else
                          eSwapLoop rest prices cc cp cInit rp cv threshold minAcc snaps
                            (some (bc, bd))

/-- Rule 3 part 1 (enhanced_logic.py:160-165): raise the global peak and the
minimum acceptable value (90% of peak) when the current value is a new high. -/
def ratchet (s : EState) (cv : ℚ) : EState :=
  if cv > s.bot.global_peak_value then
    { s with bot := { s.bot with global_peak_value := cv,
                                 min_acceptable_value := cv * (9 / 10) } }
  else s

/-- `EnhancedTradingLogic.should_swap` (enhanced_logic.py:118-231).
Returns the mutated state (ORM attribute writes survive a raise) together
with the swap decision or the exception that escaped. -/
def should_swap (s : EState) (prices : PriceMap) :
    EState × Except PyErr (Option String) :=
  match s.bot.current_coin with
  | none => (s, .ok none)
  | some cc =>
    match plookup prices (refCoinOf s.bot) with
    | none => (s, .ok none)
    | some rp =>
      match plookup prices cc with
      | none => (s, .ok none)
      | some cp =>
        match findSnap s.snapshots cc with
        | none => (s, .ok none)
        | some csnap =>
          match divE cp rp with
          | .error e => (s, .error e)
          | .ok q0 =>
            -- `current_value` is `q0 * units_held`; the ratchet block has
            -- already mutated `self.bot` when the candidate loop reads
            -- `self.bot.min_acceptable_value`; `self.coins` and the
            -- snapshot rows are untouched by the ratchet.
            match eSwapLoop s.coins prices cc cp csnap.initial_price rp
                (q0 * csnap.units_held) (-(|s.bot.threshold_percentage|) / 100)
                ((ratchet s (q0 * csnap.units_held)).bot.min_acceptable_value)
                s.snapshots none with
            | .error e => (ratchet s (q0 * csnap.units_held), .error e)
            | .ok best => (ratchet s (q0 * csnap.units_held), .ok (best.map Prod.fst))

/-- `EnhancedTradingLogic.update_after_swap` (enhanced_logic.py:233-290).
When the reference price is zero the `eth_equivalent_value` line raises after
`units_held` and `was_ever_held` were already assigned. -/
def update_after_swap (s : EState) (from_coin to_coin : String) (units : ℚ)
    (prices : PriceMap) : EState × Except PyErr Unit :=
  if prices.isEmpty then (s, .ok ())
  else
    match plookup prices to_coin with
    | none => (s, .ok ())
    | some pc =>
      match plookup prices (refCoinOf s.bot) with
      | none => (s, .ok ())
      | some rp =>
        match findSnap s.snapshots to_coin with
        | none => (s, .ok ())
        | some _ =>
          match divE pc rp with
          | .error e =>
            let part := setSnap s.snapshots to_coin
              (fun t => { t with units_held := units, was_ever_held := true })
            ({ s with snapshots := part }, .error e)
          | .ok q =>
            let upd := fun (t : Snapshot) =>
              { t with
                  units_held := units,
                  was_ever_held := true,
                  eth_equivalent_value := q * units,
                  max_units_reached :=
                    if units > t.max_units_reached then units
                    else t.max_units_reached }
            let snaps1 := setSnap s.snapshots to_coin upd
            let snaps2 := setSnap snaps1 from_coin (fun t => { t with units_held := 0 })
            ({ s with snapshots := snaps2,
                      bot := { s.bot with current_coin := some to_coin } }, .ok ())

/-- One evaluation cycle: `should_swap`, then `update_after_swap` when a
target was selected (the composition described in spec section 4.3). -/
def runCycle (s : EState) (prices : PriceMap) (units : ℚ) : EState :=
  match should_swap s prices with
  | (s1, .ok (some c)) =>
    match s1.bot.current_coin with
    | some cc => (update_after_swap s1 cc c units prices).1
    | none => s1
  | (s1, _) => s1

/-- A sequence of evaluation cycles. -/
def runCycles (s : EState) (l : List (PriceMap × ℚ)) : EState :=
  match l with
  | [] => s
  | (p, u) :: rest => runCycles (runCycle s p u) rest

/-- `(current_price / reference_price) * units_held` (enhanced_logic.py:158). -/
def currentValueOf (s : EState) (prices : PriceMap) : ℚ :=
  match s.bot.current_coin with
  | none => 0
  | some cc =>
    (plookup prices cc).getD 0 / (plookup prices (refCoinOf s.bot)).getD 0
      * ((findSnap s.snapshots cc).map Snapshot.units_held).getD 0

/-- `current_value * reference_price / prices[coin]` (enhanced_logic.py:202). -/
def estimatedUnitsOf (s : EState) (prices : PriceMap) (c : String) : ℚ :=
  currentValueOf s prices * (plookup prices (refCoinOf s.bot)).getD 0
    / (plookup prices c).getD 0

/-- `estimated_units * prices[coin] / reference_price * fee_factor`
(enhanced_logic.py:215-216). -/
def estimatedValueOf (s : EState) (prices : PriceMap) (c : String) : ℚ :=
  estimatedUnitsOf s prices c * (plookup prices c).getD 0
    / (plookup prices (refCoinOf s.bot)).getD 0 * (99 / 100)

/-- All conditions a candidate `c` with deviation `d` passes inside the
`should_swap` loop before it can become the best candidate. -/
def passedAll (prices : PriceMap) (cc : String)
    (cp cInit rp cv threshold minAcc : ℚ) (snaps : List Snapshot)
    (c : String) (d : ℚ) : Prop :=
  ¬ c = cc ∧ ∃ pc tsnap estU q,
    plookup prices c = some pc ∧
    findSnap snaps c = some tsnap ∧
    deviationCalc pc tsnap.initial_price cp cInit = Except.ok d ∧
    ¬ d ≥ threshold ∧
    divE (cv * rp) pc = Except.ok estU ∧
    ¬ (tsnap.was_ever_held = true ∧ estU ≤ tsnap.max_units_reached) ∧
    divE (estU * pc) rp = Except.ok q ∧
    ¬ q * (99 / 100) < minAcc

/-! ## Helper lemmas -/

theorem plookup_nonempty {m : PriceMap} {k : String} {v : ℚ}
    (h : plookup m k = some v) : m.isEmpty = false := by
  cases m with
  | nil => simp [plookup] at h
  | cons p rest => rfl

theorem divE_ok {x y : ℚ} (hy : y ≠ 0) : divE x y = Except.ok (x / y) := by
  simp [divE, hy]

theorem divE_ok_ne {x y q : ℚ} (h : divE x y = Except.ok q) :
    y ≠ 0 ∧ q = x / y := by
  by_cases hy : y = 0
  · simp [divE, hy] at h
  · refine ⟨hy, ?_⟩
    simp [divE, hy] at h
    exact h.symm

/-- Soundness of the `calculate_changes` loop on fully present, nonzero data. -/
theorem calcChangesLoop_ok (cc : String) (cur lastp : PriceMap) (ccp lcp : ℚ)
    (hccp : ccp ≠ 0) (hlcp : lcp ≠ 0) :
    ∀ coins : List String,
      (∀ c ∈ coins, ¬ c = cc → ∃ cp lp, plookup cur c = some cp ∧
        plookup lastp c = some lp ∧ lp ≠ 0) →
      ∃ l, calcChangesLoop coins cc cur lastp ccp lcp = Except.ok l ∧
        (∀ c cp lp, c ∈ coins → ¬ c = cc → plookup cur c = some cp →
          plookup lastp c = some lp →
          plookup l c = some ((cp / ccp - lp / lcp) / (lp / lcp))) ∧
        (∀ p ∈ l, ¬ p.1 = cc) := by
  intro coins
  induction coins with
  | nil =>
    intro _
    exact ⟨[], rfl, by simp, by simp⟩
  | cons c0 rest ih =>
    intro hall
    have hrest : ∀ c ∈ rest, ¬ c = cc → ∃ cp lp, plookup cur c = some cp ∧
        plookup lastp c = some lp ∧ lp ≠ 0 := by
      intro c hc hne
      exact hall c (List.mem_cons_of_mem _ hc) hne
    by_cases h0 : c0 = cc
    · obtain ⟨l, hl, hv, hk⟩ := ih hrest
      refine ⟨l, ?_, ?_, hk⟩
      · simpa [calcChangesLoop, h0] using hl
      · intro c cp lp hc hne hcp hlp
        rcases List.mem_cons.mp hc with rfl | hc
        · exact absurd h0 hne
        · exact hv c cp lp hc hne hcp hlp
    · obtain ⟨cp0, lp0, hcp0, hlp0, hlp0ne⟩ := hall c0 (List.mem_cons_self c0 rest) h0
      obtain ⟨l, hl, hv, hk⟩ := ih hrest
      have hlrne : lp0 / lcp ≠ 0 := div_ne_zero hlp0ne hlcp
      refine ⟨(c0, (cp0 / ccp - lp0 / lcp) / (lp0 / lcp)) :: l, ?_, ?_, ?_⟩
      · simp [calcChangesLoop, h0, hcp0, hlp0, divE_ok hccp, divE_ok hlcp,
          divE_ok hlrne, hl]
      · intro c cp lp hc hne hcp hlp
        by_cases hcc0 : c = c0
        · subst hcc0
          rw [hcp0] at hcp
          rw [hlp0] at hlp
          cases hcp
          cases hlp
          simp [plookup]
        · have hcr : c ∈ rest := by
            rcases List.mem_cons.mp hc with rfl | hcr
            · exact absurd rfl hcc0
            · exact hcr
          simp only [plookup, if_neg hcc0]
          exact hv c cp lp hcr hne hcp hlp
      · intro p hp
        rcases List.mem_cons.mp hp with rfl | hp
        · exact h0
        · exact hk p hp

/-- C1: for every bot whose held asset is present in both the last-known and
the current price map (with the candidates present and the denominators
nonzero, without which the expression is undefined), `calculate_changes`
returns a mapping whose value for each other candidate equals
`((now[c]/now[held]) - (then[c]/then[held])) / (then[c]/then[held])`, and the
held asset never appears as a key of the output. -/
theorem calculate_changes_ok (b : BotPy) (cur : PriceMap) (cc : String)
    (ccp lcp : ℚ) (hcc : b.current_coin = some cc)
    (hc : plookup cur cc = some ccp) (hl : plookup b.last_prices cc = some lcp)
    (hccp : ccp ≠ 0) (hlcp : lcp ≠ 0)
    (hall : ∀ c ∈ b.coins, ¬ c = cc → ∃ cp lp, plookup cur c = some cp ∧
      plookup b.last_prices c = some lp ∧ lp ≠ 0) :
    ∃ l, calculate_changes b cur = Except.ok l ∧
      (∀ c cp lp, c ∈ b.coins → ¬ c = cc → plookup cur c = some cp →
        plookup b.last_prices c = some lp →
        plookup l c = some ((cp / ccp - lp / lcp) / (lp / lcp))) ∧
      (∀ p ∈ l, ¬ p.1 = cc) := by
  obtain ⟨l, hloop, hv, hk⟩ := calcChangesLoop_ok cc cur b.last_prices ccp lcp
    hccp hlcp b.coins hall
  refine ⟨l, ?_, hv, hk⟩
  simp [calculate_changes, hcc, hc, hl, plookup_nonempty hl, hloop]

/-- The winning entry dominates the accumulator it started from. -/
theorem findBestLoop_acc_le (threshold : ℚ) :
    ∀ (items : List (String × ℚ)) (best : Option (String × ℚ)) (c bc : String)
      (ch bch : ℚ),
      findBestLoop items threshold best = some (c, ch) →
      best = some (bc, bch) → bch ≤ ch := by
  intro items
  induction items with
  | nil =>
    intro best c bc ch bch h hb
    rw [hb] at h
    simp [findBestLoop] at h
    exact le_of_eq h.2
  | cons p rest ih =>
    intro best c bc ch bch h hb
    obtain ⟨c0, ch0⟩ := p
    subst hb
    simp only [findBestLoop] at h
    by_cases hcond : ch0 > threshold ∧ ch0 > bch
    · rw [if_pos hcond] at h
      exact le_trans (le_of_lt hcond.2) (ih _ c c0 ch ch0 h rfl)
    · rw [if_neg hcond] at h
      exact ih _ c bc ch bch h rfl

/-- Any winner either exceeded the threshold inside the list or was already
the accumulator. -/
theorem findBestLoop_mem (threshold : ℚ) :
    ∀ (items : List (String × ℚ)) (best : Option (String × ℚ)) (c : String)
      (ch : ℚ),
      findBestLoop items threshold best = some (c, ch) →
      ((c, ch) ∈ items ∧ ch > threshold) ∨ best = some (c, ch) := by
  intro items
  induction items with
  | nil =>
    intro best c ch h
    right
    simpa [findBestLoop] using h
  | cons p rest ih =>
    intro best c ch h
    obtain ⟨c0, ch0⟩ := p
    cases best with
    | none =>
      simp only [findBestLoop] at h
      by_cases hth : ch0 > threshold
      · rw [if_pos hth] at h
        rcases ih _ c ch h with hmem | hacc
        · exact Or.inl ⟨List.mem_cons_of_mem _ hmem.1, hmem.2⟩
        · have heq : (c0, ch0) = (c, ch) := Option.some.inj hacc
          exact Or.inl ⟨heq ▸ List.mem_cons_self (c0, ch0) rest, by
            obtain ⟨h1, h2⟩ := Prod.mk.injEq c0 ch0 c ch ▸ heq
            rw [← h2]
            exact hth⟩
      · rw [if_neg hth] at h
        rcases ih _ c ch h with hmem | hacc
        · exact Or.inl ⟨List.mem_cons_of_mem _ hmem.1, hmem.2⟩
        · simp at hacc
    | some b0 =>
      obtain ⟨bc, bch⟩ := b0
      simp only [findBestLoop] at h
      by_cases hcond : ch0 > threshold ∧ ch0 > bch
      · rw [if_pos hcond] at h
        rcases ih _ c ch h with hmem | hacc
        · exact Or.inl ⟨List.mem_cons_of_mem _ hmem.1, hmem.2⟩
        · have heq : (c0, ch0) = (c, ch) := Option.some.inj hacc
          refine Or.inl ⟨heq ▸ List.mem_cons_self (c0, ch0) rest, ?_⟩
          obtain ⟨h1, h2⟩ := Prod.mk.injEq c0 ch0 c ch ▸ heq
          rw [← h2]
          exact hcond.1
      · rw [if_neg hcond] at h
        rcases ih _ c ch h with hmem | hacc
        · exact Or.inl ⟨List.mem_cons_of_mem _ hmem.1, hmem.2⟩
        · exact Or.inr hacc

/-- The winner dominates every entry of the list that exceeds the threshold. -/
theorem findBestLoop_max (threshold : ℚ) :
    ∀ (items : List (String × ℚ)) (best : Option (String × ℚ)) (c : String)
      (ch : ℚ),
      findBestLoop items threshold best = some (c, ch) →
      ∀ p ∈ items, p.2 > threshold → p.2 ≤ ch := by
  intro items
  induction items with
  | nil =>
    intro best c ch _ p hp
    simp at hp
  | cons p0 rest ih =>
    intro best c ch h p hp hpth
    obtain ⟨c0, ch0⟩ := p0
    rcases List.mem_cons.mp hp with rfl | hpr
    · -- p is the head (c0, ch0)
      cases best with
      | none =>
        simp only [findBestLoop] at h
        rw [if_pos hpth] at h
        exact findBestLoop_acc_le threshold rest _ c c0 ch ch0 h rfl
      | some b0 =>
        obtain ⟨bc, bch⟩ := b0
        simp only [findBestLoop] at h
        by_cases hcond : ch0 > threshold ∧ ch0 > bch
        · rw [if_pos hcond] at h
          exact findBestLoop_acc_le threshold rest _ c c0 ch ch0 h rfl
        · rw [if_neg hcond] at h
          have hple : ch0 ≤ bch := by
            by_contra hgt
            exact hcond ⟨hpth, lt_of_not_ge hgt⟩
          exact le_trans hple (findBestLoop_acc_le threshold rest _ c bc ch bch h rfl)
    · -- p is in the tail
      cases best with
      | none =>
        simp only [findBestLoop] at h
        by_cases hth : ch0 > threshold
        · rw [if_pos hth] at h
          exact ih _ c ch h p hpr hpth
        · rw [if_neg hth] at h
          exact ih _ c ch h p hpr hpth
      | some b0 =>
        obtain ⟨bc, bch⟩ := b0
        simp only [findBestLoop] at h
        by_cases hcond : ch0 > threshold ∧ ch0 > bch
        · rw [if_pos hcond] at h
          exact ih _ c ch h p hpr hpth
        · rw [if_neg hcond] at h
          exact ih _ c ch h p hpr hpth

/-- A nonempty accumulator never degrades to `none`. -/
theorem findBestLoop_some (threshold : ℚ) :
    ∀ (items : List (String × ℚ)) (b0 : String × ℚ),
      (findBestLoop items threshold (some b0)).isSome := by
  intro items
  induction items with
  | nil => intro b0; simp [findBestLoop]
  | cons p rest ih =>
    intro b0
    obtain ⟨c0, ch0⟩ := p
    obtain ⟨bc, bch⟩ := b0
    simp only [findBestLoop]
    by_cases hcond : ch0 > threshold ∧ ch0 > bch
    · rw [if_pos hcond]; exact ih _
    · rw [if_neg hcond]; exact ih _

/-- Some entry above the threshold guarantees a winner. -/
theorem findBestLoop_progress (threshold : ℚ) :
    ∀ (items : List (String × ℚ)) (best : Option (String × ℚ)),
      (∃ p ∈ items, p.2 > threshold) →
      (findBestLoop items threshold best).isSome := by
  intro items
  induction items with
  | nil =>
    intro best h
    simp at h
  | cons p0 rest ih =>
    intro best ⟨p, hp, hpth⟩
    obtain ⟨c0, ch0⟩ := p0
    cases best with
    | none =>
      simp only [findBestLoop]
      rcases List.mem_cons.mp hp with rfl | hpr
      · rw [if_pos hpth]
        exact findBestLoop_some threshold rest _
      · by_cases hth : ch0 > threshold
        · rw [if_pos hth]; exact findBestLoop_some threshold rest _
        · rw [if_neg hth]; exact ih _ ⟨p, hpr, hpth⟩
    | some b0 =>
      obtain ⟨bc, bch⟩ := b0
      simp only [findBestLoop]
      by_cases hcond : ch0 > threshold ∧ ch0 > bch
      · rw [if_pos hcond]; exact findBestLoop_some threshold rest _
      · rw [if_neg hcond]; exact findBestLoop_some threshold rest _

/-- With all candidates present and nonzero held-coin prices, a candidate
whose last price is zero makes the loop raise `ZeroDivisionError`. -/
theorem calcChangesLoop_zero (cc : String) (cur lastp : PriceMap) (ccp lcp : ℚ)
    (hccp : ccp ≠ 0) (hlcp : lcp ≠ 0) :
    ∀ coins : List String,
      (∀ c ∈ coins, ¬ c = cc → ∃ cp lp, plookup cur c = some cp ∧
        plookup lastp c = some lp) →
      (∃ d ∈ coins, ¬ d = cc ∧ plookup lastp d = some 0) →
      calcChangesLoop coins cc cur lastp ccp lcp
        = Except.error PyErr.zeroDivisionError := by
  intro coins
  induction coins with
  | nil =>
    intro _ h
    simp at h
  | cons c0 rest ih =>
    intro hall hex
    obtain ⟨d, hd, hdne, hdz⟩ := hex
    have hrest : ∀ c ∈ rest, ¬ c = cc → ∃ cp lp, plookup cur c = some cp ∧
        plookup lastp c = some lp := by
      intro c hc hne
      exact hall c (List.mem_cons_of_mem _ hc) hne
    by_cases h0 : c0 = cc
    · have hdr : d ∈ rest := by
        rcases List.mem_cons.mp hd with rfl | hdr
        · exact absurd h0 hdne
        · exact hdr
      simpa [calcChangesLoop, h0] using ih hrest ⟨d, hdr, hdne, hdz⟩
    · obtain ⟨cp0, lp0, hcp0, hlp0⟩ := hall c0 (List.mem_cons_self c0 rest) h0
      by_cases hz : lp0 = 0
      · subst hz
        simp [calcChangesLoop, h0, hcp0, hlp0, divE, hccp, hlcp]
      · have hdc0 : ¬ d = c0 := by
          intro h
          subst h
          rw [hlp0] at hdz
          exact hz (Option.some.inj hdz)
        have hdr : d ∈ rest := by
          rcases List.mem_cons.mp hd with rfl | hdr
          · exact absurd rfl hdc0
          · exact hdr
        have hlrne : lp0 / lcp ≠ 0 := div_ne_zero hz hlcp
        simp [calcChangesLoop, h0, hcp0, hlp0, divE_ok hccp, divE_ok hlcp,
          divE_ok hlrne, ih hrest ⟨d, hdr, hdne, hdz⟩]

/-- With every other candidate fully present and nonzero, a candidate missing
from the current price map makes the loop raise `KeyError` for it. -/
theorem calcChangesLoop_key (cc : String) (cur lastp : PriceMap) (ccp lcp : ℚ)
    (hccp : ccp ≠ 0) (hlcp : lcp ≠ 0) (d : String) (hdcur : plookup cur d = none) :
    ∀ coins : List String, d ∈ coins → ¬ d = cc →
      (∀ c ∈ coins, ¬ c = cc → ¬ c = d → ∃ cp lp, plookup cur c = some cp ∧
        plookup lastp c = some lp ∧ lp ≠ 0) →
      calcChangesLoop coins cc cur lastp ccp lcp
        = Except.error (PyErr.keyError d) := by
  intro coins
  induction coins with
  | nil =>
    intro hd
    simp at hd
  | cons c0 rest ih =>
    intro hd hdne hall
    have hrest : ∀ c ∈ rest, ¬ c = cc → ¬ c = d → ∃ cp lp, plookup cur c = some cp ∧
        plookup lastp c = some lp ∧ lp ≠ 0 := by
      intro c hc hne hnd
      exact hall c (List.mem_cons_of_mem _ hc) hne hnd
    by_cases h0 : c0 = cc
    · have hdr : d ∈ rest := by
        rcases List.mem_cons.mp hd with rfl | hdr
        · exact absurd h0 hdne
        · exact hdr
      simpa [calcChangesLoop, h0] using ih hdr hdne hrest
    · by_cases hdc0 : c0 = d
      · subst hdc0
        simp [calcChangesLoop, h0, hdcur]
      · obtain ⟨cp0, lp0, hcp0, hlp0, hlp0ne⟩ :=
          hall c0 (List.mem_cons_self c0 rest) h0 hdc0
        have hdr : d ∈ rest := by
          rcases List.mem_cons.mp hd with rfl | hdr
          · exact absurd rfl (fun h => hdc0 h.symm)
          · exact hdr
        have hlrne : lp0 / lcp ≠ 0 := div_ne_zero hlp0ne hlcp
        simp [calcChangesLoop, h0, hcp0, hlp0, divE_ok hccp, divE_ok hlcp,
          divE_ok hlrne, ih hdr hdne hrest]

/-- Any coin selected by the `should_swap` candidate loop either was already
the accumulator or passed every check. -/
theorem eSwapLoop_sound (prices : PriceMap) (cc : String)
    (cp cInit rp cv threshold minAcc : ℚ) (snaps : List Snapshot) :
    ∀ (coins : List String) (best : Option (String × ℚ)) (c : String) (d : ℚ),
      eSwapLoop coins prices cc cp cInit rp cv threshold minAcc snaps best
        = Except.ok (some (c, d)) →
      best = some (c, d) ∨
        passedAll prices cc cp cInit rp cv threshold minAcc snaps c d := by
  intro coins
  induction coins with
  | nil =>
    intro best c d h
    left
    simpa [eSwapLoop] using h
  | cons c0 rest ih =>
    intro best c d h
    simp only [eSwapLoop] at h
    by_cases h0 : c0 = cc
    · rw [if_pos h0] at h
      exact ih best c d h
    · rw [if_neg h0] at h
      cases hpc : plookup prices c0 with
      | none =>
        rw [hpc] at h
        dsimp only at h
        exact ih best c d h
      | some pc =>
        rw [hpc] at h
        dsimp only at h
        cases hsn : findSnap snaps c0 with
        | none =>
          rw [hsn] at h
          dsimp only at h
          exact ih best c d h
        | some tsnap =>
          rw [hsn] at h
          dsimp only at h
          cases hdev : deviationCalc pc tsnap.initial_price cp cInit with
          | error e =>
            rw [hdev] at h
            dsimp only at h
            exact ih best c d h
          | ok dev =>
            rw [hdev] at h
            dsimp only at h
            by_cases hth : dev ≥ threshold
            · rw [if_pos hth] at h
              exact ih best c d h
            · rw [if_neg hth] at h
              cases hest : divE (cv * rp) pc with
              | error e =>
                rw [hest] at h
                dsimp only at h
                exact absurd h (by simp)
              | ok estU =>
                rw [hest] at h
                dsimp only at h
                by_cases hr2 : tsnap.was_ever_held = true ∧ estU ≤ tsnap.max_units_reached
                · rw [if_pos hr2] at h
                  exact ih best c d h
                · rw [if_neg hr2] at h
                  cases hq : divE (estU * pc) rp with
                  | error e =>
                    rw [hq] at h
                    dsimp only at h
                    exact absurd h (by simp)
                  | ok q =>
                    rw [hq] at h
                    dsimp only at h
                    by_cases hr3 : q * (99 / 100) < minAcc
                    · rw [if_pos hr3] at h
                      exact ih best c d h
                    · rw [if_neg hr3] at h
                      cases best with
                      | none =>
                        dsimp only at h
                        rcases ih (some (c0, dev)) c d h with hbest | hp
                        · have heq : (c0, dev) = (c, d) := Option.some.inj hbest
                          obtain ⟨rfl, rfl⟩ : c0 = c ∧ dev = d :=
                            (Prod.mk.injEq c0 dev c d).mp heq
                          right
                          exact ⟨h0, pc, tsnap, estU, q, hpc, hsn, hdev, hth,
                            hest, hr2, hq, hr3⟩
                        · right
                          exact hp
                      | some b0 =>
                        obtain ⟨bc, bd⟩ := b0
                        dsimp only at h
                        by_cases hlt : dev < bd
                        · rw [if_pos hlt] at h
                          rcases ih (some (c0, dev)) c d h with hbest | hp
                          · have heq : (c0, dev) = (c, d) := Option.some.inj hbest
                            obtain ⟨rfl, rfl⟩ : c0 = c ∧ dev = d :=
                              (Prod.mk.injEq c0 dev c d).mp heq
                            right
                            exact ⟨h0, pc, tsnap, estU, q, hpc, hsn, hdev, hth,
                              hest, hr2, hq, hr3⟩
                          · right
                            exact hp
                        · rw [if_neg hlt] at h
                          exact ih (some (bc, bd)) c d h

theorem ratchet_peak_le (s : EState) (cv : ℚ) :
    s.bot.global_peak_value ≤ (ratchet s cv).bot.global_peak_value := by
  unfold ratchet
  split
  · exact le_of_lt (by assumption)
  · exact le_refl _

theorem ratchet_peak_max (s : EState) (cv : ℚ) :
    (ratchet s cv).bot.global_peak_value = max s.bot.global_peak_value cv := by
  unfold ratchet
  split
  · exact (max_eq_right (le_of_lt (by assumption))).symm
  · exact (max_eq_left (le_of_not_lt (by assumption))).symm

theorem ratchet_min_inv (s : EState) (cv : ℚ)
    (hinv : s.bot.min_acceptable_value = s.bot.global_peak_value * (9 / 10)) :
    (ratchet s cv).bot.min_acceptable_value
      = (ratchet s cv).bot.global_peak_value * (9 / 10) := by
  unfold ratchet
  split
  · rfl
  · exact hinv

theorem ratchet_coins (s : EState) (cv : ℚ) : (ratchet s cv).coins = s.coins := by
  unfold ratchet
  split <;> rfl

theorem ratchet_snapshots (s : EState) (cv : ℚ) :
    (ratchet s cv).snapshots = s.snapshots := by
  unfold ratchet
  split <;> rfl

/-- `should_swap` leaves the state alone or applies the peak ratchet. -/
theorem should_swap_state (s : EState) (prices : PriceMap) :
    (should_swap s prices).1 = s ∨ ∃ cv, (should_swap s prices).1 = ratchet s cv := by
  unfold should_swap
  cases s.bot.current_coin with
  | none => exact Or.inl rfl
  | some cc =>
    dsimp only
    cases plookup prices (refCoinOf s.bot) with
    | none => exact Or.inl rfl
    | some rp =>
      dsimp only
      cases plookup prices cc with
      | none => exact Or.inl rfl
      | some cp =>
        dsimp only
        cases findSnap s.snapshots cc with
        | none => exact Or.inl rfl
        | some csnap =>
          dsimp only
          cases divE cp rp with
          | error e => exact Or.inl rfl
          | ok q0 =>
            dsimp only
            cases eSwapLoop s.coins prices cc cp csnap.initial_price rp
                (q0 * csnap.units_held) (-(|s.bot.threshold_percentage|) / 100)
                ((ratchet s (q0 * csnap.units_held)).bot.min_acceptable_value)
                s.snapshots none with
            | error e => exact Or.inr ⟨q0 * csnap.units_held, rfl⟩
            | ok best => exact Or.inr ⟨q0 * csnap.units_held, rfl⟩

/-- The peak value never decreases across a `should_swap` evaluation. -/
theorem should_swap_peak_le (s : EState) (prices : PriceMap) :
    s.bot.global_peak_value ≤ ((should_swap s prices).1).bot.global_peak_value := by
  rcases should_swap_state s prices with h | ⟨cv, h⟩
  · rw [h]
  · rw [h]
    exact ratchet_peak_le s cv

/-- On a cycle with full data the peak becomes the max of the old peak and the
current reference-equivalent value. -/
theorem should_swap_peak_max (s : EState) (prices : PriceMap) (cc : String)
    (rp cp : ℚ) (csnap : Snapshot) (hcc : s.bot.current_coin = some cc)
    (href : plookup prices (refCoinOf s.bot) = some rp)
    (hcp : plookup prices cc = some cp)
    (hcsnap : findSnap s.snapshots cc = some csnap) (hrp : rp ≠ 0) :
    ((should_swap s prices).1).bot.global_peak_value
      = max s.bot.global_peak_value (cp / rp * csnap.units_held) := by
  unfold should_swap
  rw [hcc]
  dsimp only
  rw [href]
  dsimp only
  rw [hcp]
  dsimp only
  rw [hcsnap]
  dsimp only
  rw [divE_ok hrp]
  dsimp only
  cases eSwapLoop s.coins prices cc cp csnap.initial_price rp
      (cp / rp * csnap.units_held) (-(|s.bot.threshold_percentage|) / 100)
      ((ratchet s (cp / rp * csnap.units_held)).bot.min_acceptable_value)
      s.snapshots none with
  | error e => exact ratchet_peak_max s _
  | ok best => exact ratchet_peak_max s _

/-- Destructor for a successful selection: the data the path must have seen
and the checks the selected coin passed. The minimum-acceptable value the
loop read is the one of the post-ratchet state `(should_swap s prices).1`. -/
theorem should_swap_sel (s : EState) (prices : PriceMap) (c : String)
    (h : (should_swap s prices).2 = Except.ok (some c)) :
    ∃ cc rp cp csnap d,
      s.bot.current_coin = some cc ∧
      plookup prices (refCoinOf s.bot) = some rp ∧
      plookup prices cc = some cp ∧
      findSnap s.snapshots cc = some csnap ∧
      rp ≠ 0 ∧
      (should_swap s prices).1 = ratchet s (cp / rp * csnap.units_held) ∧
      passedAll prices cc cp csnap.initial_price rp (cp / rp * csnap.units_held)
        (-(|s.bot.threshold_percentage|) / 100)
        ((ratchet s (cp / rp * csnap.units_held)).bot.min_acceptable_value)
        s.snapshots c d := by
  unfold should_swap at h ⊢
  cases hcc : s.bot.current_coin with
  | none =>
    rw [hcc] at h
    simp at h
  | some cc =>
    rw [hcc] at h
    dsimp only at h ⊢
    cases href : plookup prices (refCoinOf s.bot) with
    | none =>
      rw [href] at h
      simp at h
    | some rp =>
      rw [href] at h
      dsimp only at h ⊢
      cases hcp : plookup prices cc with
      | none =>
        rw [hcp] at h
        simp at h
      | some cp =>
        rw [hcp] at h
        dsimp only at h ⊢
        cases hcsnap : findSnap s.snapshots cc with
        | none =>
          rw [hcsnap] at h
          simp at h
        | some csnap =>
          rw [hcsnap] at h
          dsimp only at h ⊢
          cases hq0 : divE cp rp with
          | error e =>
            rw [hq0] at h
            simp at h
          | ok q0 =>
            rw [hq0] at h
            dsimp only at h ⊢
            obtain ⟨hrp, hq0v⟩ := divE_ok_ne hq0
            subst hq0v
            cases hloop : eSwapLoop s.coins prices cc cp csnap.initial_price rp
                (cp / rp * csnap.units_held) (-(|s.bot.threshold_percentage|) / 100)
                ((ratchet s (cp / rp * csnap.units_held)).bot.min_acceptable_value)
                s.snapshots none with
            | error e =>
              rw [hloop] at h
              simp at h
            | ok best =>
              rw [hloop] at h
              dsimp only at h ⊢
              have hbest : best.map Prod.fst = some c := by
                injection h
              cases best with
              | none => simp at hbest
              | some p =>
                obtain ⟨bc, bd⟩ := p
                have hbc : bc = c := by simpa using hbest
                subst hbc
                rcases eSwapLoop_sound prices cc cp csnap.initial_price rp
                    (cp / rp * csnap.units_held) (-(|s.bot.threshold_percentage|) / 100)
                    ((ratchet s (cp / rp * csnap.units_held)).bot.min_acceptable_value)
                    s.snapshots s.coins none bc bd hloop with hnone | hpass
                · simp at hnone
                · exact ⟨cc, rp, cp, csnap, bd, rfl, rfl, hcp, hcsnap, hrp, rfl, hpass⟩

/-- `update_after_swap` never touches the peak value. -/
theorem update_after_swap_peak (s : EState) (from_coin to_coin : String)
    (units : ℚ) (prices : PriceMap) :
    ((update_after_swap s from_coin to_coin units prices).1).bot.global_peak_value
      = s.bot.global_peak_value := by
  unfold update_after_swap
  split
  · rfl
  · cases plookup prices to_coin with
    | none => rfl
    | some pc =>
      dsimp only
      cases plookup prices (refCoinOf s.bot) with
      | none => rfl
      | some rp =>
        dsimp only
        cases findSnap s.snapshots to_coin with
        | none => rfl
        | some t =>
          dsimp only
          cases divE pc rp with
          | error e => rfl
          | ok q => rfl

/-- One full cycle never decreases the peak value. -/
theorem runCycle_peak_le (s : EState) (prices : PriceMap) (units : ℚ) :
    s.bot.global_peak_value ≤ (runCycle s prices units).bot.global_peak_value := by
  unfold runCycle
  cases hss : should_swap s prices with
  | mk s1 r =>
    have h1 : s.bot.global_peak_value ≤ s1.bot.global_peak_value := by
      have := should_swap_peak_le s prices
      rw [hss] at this
      exact this
    cases r with
    | error e => exact h1
    | ok o =>
      cases o with
      | none => exact h1
      | some c =>
        dsimp only
        cases s1.bot.current_coin with
        | none => exact h1
        | some cc =>
          dsimp only
          rw [update_after_swap_peak]
          exact h1

/-- The peak value is non-decreasing over any sequence of cycles. -/
theorem runCycles_peak_le (l : List (PriceMap × ℚ)) :
    ∀ s : EState,
      s.bot.global_peak_value ≤ (runCycles s l).bot.global_peak_value := by
  induction l with
  | nil => intro s; exact le_refl _
  | cons p rest ih =>
    intro s
    obtain ⟨prices, units⟩ := p
    calc s.bot.global_peak_value
        ≤ (runCycle s prices units).bot.global_peak_value :=
          runCycle_peak_le s prices units
      _ ≤ (runCycles (runCycle s prices units) rest).bot.global_peak_value :=
          ih (runCycle s prices units)
      _ = (runCycles s ((prices, units) :: rest)).bot.global_peak_value := rfl

/-! ## Claim theorems, witnesses and counterexamples -/

/-- A concrete bot used to witness the bot.py theorems. -/
def c1Bot : BotPy := {
  coins := ["X", "Y"],
  threshold := 1 / 20,
  current_coin := some "X",
  initial_coin := some "X",
  last_prices := [("X", 1), ("Y", 2)],
  active_trade_id := none }

/-- Witness for C1: with held coin X at prices 1 → 2 and candidate Y at
2 → 6, the change for Y is `(6/2 - 2/1) / (2/1) = 1/2` and X is not a key. -/
theorem calculate_changes_ok_witness :
    ∃ l, calculate_changes c1Bot [("X", 2), ("Y", 6)] = Except.ok l ∧
      plookup l "Y" = some ((6 / 2 - 2 / 1) / (2 / 1)) ∧ (∀ p ∈ l, ¬ p.1 = "X") := by
  obtain ⟨l, h1, h2, h3⟩ := calculate_changes_ok c1Bot [("X", 2), ("Y", 6)] "X" 2 1
    rfl (by simp [plookup]) (by simp [c1Bot, plookup]) (by norm_num) (by norm_num)
    (by
      intro c hc hne
      simp only [c1Bot, List.mem_cons, List.not_mem_nil, or_false] at hc
      rcases hc with rfl | rfl
      · exact absurd rfl hne
      · exact ⟨6, 2, by simp [plookup], by simp [c1Bot, plookup], by norm_num⟩)
  refine ⟨l, h1, ?_, h3⟩
  exact h2 "Y" 6 2 (by simp [c1Bot]) (by simp) (by simp [plookup])
    (by simp [c1Bot, plookup])

/-- C2: `find_best_swap` never returns a candidate whose change is at most
the threshold, a returned candidate carries the largest change among those
exceeding the threshold, and whenever some candidate exceeds the threshold a
candidate is returned. -/
theorem find_best_swap_spec (b : BotPy) (changes : List (String × ℚ)) (cc : String)
    (hcc : b.current_coin = some cc) (hlp : b.last_prices.isEmpty = false) :
    (∀ c, find_best_swap b changes = some c →
      ∃ ch, (c, ch) ∈ changes ∧ ch > b.threshold ∧
        ∀ p ∈ changes, p.2 > b.threshold → p.2 ≤ ch)
    ∧ ((∃ p ∈ changes, p.2 > b.threshold) →
      (find_best_swap b changes).isSome) := by
  constructor
  · intro c hc
    unfold find_best_swap at hc
    rw [hcc] at hc
    dsimp only at hc
    rw [hlp] at hc
    by_cases hch : changes.isEmpty
    · simp [hch] at hc
    · rw [Bool.not_eq_true] at hch
      simp only [hch, Bool.false_eq_true, if_false] at hc
      rcases Option.map_eq_some'.mp hc with ⟨⟨c1, ch⟩, hloop, hfst⟩
      dsimp only at hfst
      rw [← hfst]
      rcases findBestLoop_mem b.threshold changes none c1 ch hloop with ⟨hmem, hgt⟩ | habs
      · exact ⟨ch, hmem, hgt, findBestLoop_max b.threshold changes none c1 ch hloop⟩
      · simp at habs
  · intro ⟨p, hp, hpth⟩
    have hne : changes.isEmpty = false := by
      cases changes with
      | nil => simp at hp
      | cons q rest => rfl
    unfold find_best_swap
    rw [hcc]
    dsimp only
    rw [hlp, hne]
    simp only [Bool.false_eq_true, if_false]
    have := findBestLoop_progress b.threshold changes none ⟨p, hp, hpth⟩
    rcases Option.isSome_iff_exists.mp this with ⟨b0, hb0⟩
    rw [hb0]
    rfl

/-- Witness for C2: with threshold 1/20 both A (+10%) and B (+20%) exceed it
and B, the largest, is selected. -/
theorem find_best_swap_spec_witness :
    (∃ ch, ("B", ch) ∈ [("A", (1:ℚ)/10), ("B", 2/10)] ∧ ch > c1Bot.threshold ∧
      ∀ p ∈ [("A", (1:ℚ)/10), ("B", 2/10)], p.2 > c1Bot.threshold → p.2 ≤ ch)
    ∧ (find_best_swap c1Bot [("A", (1:ℚ)/10), ("B", 2/10)]).isSome := by
  have h := find_best_swap_spec c1Bot [("A", (1:ℚ)/10), ("B", 2/10)] "X" rfl rfl
  refine ⟨h.1 "B" ?_, h.2 ⟨("A", (1:ℚ)/10), by simp, by norm_num [c1Bot]⟩⟩
  simp +decide only [find_best_swap, c1Bot, findBestLoop]
  norm_num

/-- C3 (amended): a previously-held candidate is never selected when the
estimated units are at most the per-asset high-water mark — the code applies
no 1% buffer, only the strict comparison `estimated_units > max_units_reached`. -/
theorem rule2_reentry (s : EState) (prices : PriceMap) (c : String)
    (tsnap : Snapshot) (hsel : (should_swap s prices).2 = Except.ok (some c))
    (hsnap : findSnap s.snapshots c = some tsnap)
    (hheld : tsnap.was_ever_held = true) :
    estimatedUnitsOf s prices c > tsnap.max_units_reached := by
  obtain ⟨cc, rp, cp, csnap, d, hcc, href, hcp, hcsnap, hrp, hst, hpass⟩ :=
    should_swap_sel s prices c hsel
  obtain ⟨hne, pc, tsnap2, estU, q, hpc, hsn2, hdev, hth, hest, hr2, hq, hr3⟩ := hpass
  rw [hsnap] at hsn2
  have htsn : tsnap2 = tsnap := (Option.some.inj hsn2).symm
  subst htsn
  obtain ⟨hpcne, hestv⟩ := divE_ok_ne hest
  have hunits : estimatedUnitsOf s prices c = estU := by
    rw [hestv]
    simp [estimatedUnitsOf, currentValueOf, hcc, hcp, href, hcsnap, hpc]
  rw [hunits]
  by_contra hle
  exact hr2 ⟨hheld, le_of_not_lt hle⟩

/-- A state for the Rule 2 counterexample: Y was previously held with a
high-water mark of 1.11 units; at the given prices a swap into Y yields
10/9 ≈ 1.1111 units — above the mark but inside the claimed 1% buffer. -/
def ce3S : EState := {
  bot := { current_coin := some "X", reference_coin := some "ETH",
           threshold_percentage := 5, global_threshold_percentage := 10,
           global_peak_value := 0, min_acceptable_value := 0 },
  coins := ["X", "Y"],
  snapshots := [
    { coin := "X", initial_price := 100, units_held := 1,
      eth_equivalent_value := 100, was_ever_held := true, max_units_reached := 1 },
    { coin := "Y", initial_price := 100, units_held := 0,
      eth_equivalent_value := 0, was_ever_held := true,
      max_units_reached := 111 / 100 } ] }

/-- Prices for the Rule 2 counterexample. -/
def ce3P : PriceMap := [("ETH", 1), ("X", 100), ("Y", 90)]

/-- Counterexample to C3 as stated: Y was previously held, its estimated
units (10/9) do not exceed the high-water mark times 1.01
(1.11 × 1.01 = 1.1211), yet `should_swap` selects Y. -/
theorem rule2_buffer_counterexample :
    (should_swap ce3S ce3P).2 = Except.ok (some "Y")
    ∧ (findSnap ce3S.snapshots "Y").map Snapshot.was_ever_held = some true
    ∧ estimatedUnitsOf ce3S ce3P "Y"
        ≤ ((findSnap ce3S.snapshots "Y").map Snapshot.max_units_reached).getD 0
          * (101 / 100) := by
  refine ⟨?_, ?_, ?_⟩
  · simp +decide only [should_swap, ce3S, ce3P, refCoinOf, plookup, findSnap,
      eSwapLoop, deviationCalc, divE, ratchet]
    norm_num
  · simp +decide [ce3S, findSnap]
  · simp +decide only [estimatedUnitsOf, currentValueOf, ce3S, ce3P, refCoinOf,
      plookup, findSnap]
    norm_num

/-- Witness for the amended C3 theorem at the same concrete state: the
selected coin Y indeed yields strictly more units than its high-water mark. -/
theorem rule2_reentry_witness :
    estimatedUnitsOf ce3S ce3P "Y"
      > ({ coin := "Y", initial_price := 100, units_held := 0,
           eth_equivalent_value := 0, was_ever_held := true,
           max_units_reached := 111 / 100 } : Snapshot).max_units_reached := by
  refine rule2_reentry ce3S ce3P "Y" _ ?_ ?_ rfl
  · simp +decide only [should_swap, ce3S, ce3P, refCoinOf, plookup, findSnap,
      eSwapLoop, deviationCalc, divE, ratchet]
    norm_num
  · simp +decide [ce3S, findSnap]

/-- C4 (amended): whenever a swap target is selected its estimated post-swap
reference-equivalent value is at least the (post-ratchet) peak value times
`1 - 0.10` — the 10% floor is hard-coded (`min_acceptable_value = 0.9 × peak`)
and the evaluator never reads the per-bot configured
`global_threshold_percentage`. The invariant `min = 0.9 × peak` is preserved,
so the floor holds over any sequence of cycles. -/
theorem rule3_floor (s : EState) (prices : PriceMap) (c : String)
    (hinv : s.bot.min_acceptable_value = s.bot.global_peak_value * (9 / 10))
    (hsel : (should_swap s prices).2 = Except.ok (some c)) :
    estimatedValueOf s prices c
      ≥ ((should_swap s prices).1).bot.global_peak_value * (9 / 10)
    ∧ s.bot.global_peak_value ≤ ((should_swap s prices).1).bot.global_peak_value
    ∧ ((should_swap s prices).1).bot.min_acceptable_value
      = ((should_swap s prices).1).bot.global_peak_value * (9 / 10) := by
  obtain ⟨cc, rp, cp, csnap, d, hcc, href, hcp, hcsnap, hrp, hst, hpass⟩ :=
    should_swap_sel s prices c hsel
  obtain ⟨hne, pc, tsnap, estU, q, hpc, hsn, hdev, hth, hest, hr2, hq, hr3⟩ := hpass
  obtain ⟨hpcne, hestv⟩ := divE_ok_ne hest
  obtain ⟨hrpne, hqv⟩ := divE_ok_ne hq
  have hval : estimatedValueOf s prices c = q * (99 / 100) := by
    rw [hqv, hestv]
    simp [estimatedValueOf, estimatedUnitsOf, currentValueOf, hcc, hcp, href,
      hcsnap, hpc]
  rw [hst, hval]
  refine ⟨?_, ratchet_peak_le s _, ratchet_min_inv s _ hinv⟩
  rw [← ratchet_min_inv s _ hinv]
  exact le_of_not_lt hr3

/-- A state for the Rule 3 counterexample: configured global threshold 5%,
peak 100 (min acceptable 90); the selected swap is worth 91.08 reference
units — above the hard-coded 90 floor but below the configured 95 floor. -/
def ce4S : EState := {
  bot := { current_coin := some "X", reference_coin := some "ETH",
           threshold_percentage := 5, global_threshold_percentage := 5,
           global_peak_value := 100, min_acceptable_value := 90 },
  coins := ["X", "Y"],
  snapshots := [
    { coin := "X", initial_price := 100, units_held := 1,
      eth_equivalent_value := 92, was_ever_held := true, max_units_reached := 1 },
    { coin := "Y", initial_price := 100, units_held := 0,
      eth_equivalent_value := 0, was_ever_held := false, max_units_reached := 0 } ] }

/-- Prices for the Rule 3 counterexample. -/
def ce4P : PriceMap := [("ETH", 1), ("X", 92), ("Y", 80)]

/-- Counterexample to C4 as stated: with the bot's configured
`global_threshold_percentage = 5`, `should_swap` selects Y although the
estimated post-swap value (91.08) is below
`peak_value × (1 − 0.05) = 95` — the evaluator uses the hard-coded 10%
floor, not the configured per-bot value. -/
theorem rule3_configured_counterexample :
    (should_swap ce4S ce4P).2 = Except.ok (some "Y")
    ∧ ce4S.bot.global_threshold_percentage = 5
    ∧ estimatedValueOf ce4S ce4P "Y"
      < ((should_swap ce4S ce4P).1).bot.global_peak_value
        * (1 - ce4S.bot.global_threshold_percentage / 100) := by
  refine ⟨?_, rfl, ?_⟩
  · simp +decide only [should_swap, ce4S, ce4P, refCoinOf, plookup, findSnap,
      eSwapLoop, deviationCalc, divE, ratchet]
    norm_num
  · simp +decide only [should_swap, estimatedValueOf, estimatedUnitsOf,
      currentValueOf, ce4S, ce4P, refCoinOf, plookup, findSnap, eSwapLoop,
      deviationCalc, divE, ratchet]
    norm_num

/-- Witness for the amended C4 theorem at the same concrete state. -/
theorem rule3_floor_witness :
    estimatedValueOf ce4S ce4P "Y"
      ≥ ((should_swap ce4S ce4P).1).bot.global_peak_value * (9 / 10)
    ∧ ce4S.bot.global_peak_value ≤ ((should_swap ce4S ce4P).1).bot.global_peak_value
    ∧ ((should_swap ce4S ce4P).1).bot.min_acceptable_value
      = ((should_swap ce4S ce4P).1).bot.global_peak_value * (9 / 10) :=
  rule3_floor ce4S ce4P "Y" (by norm_num [ce4S]) (by
    simp +decide only [should_swap, ce4S, ce4P, refCoinOf, plookup, findSnap,
      eSwapLoop, deviationCalc, divE, ratchet]
    norm_num)

/-- C5: on every evaluation the peak value never decreases; on an evaluation
with full data it becomes `max(peak, current reference-equivalent value of
the held asset)` — also on cycles that select no swap; and over any sequence
of cycles the peak is monotonically non-decreasing. -/
theorem peak_value_ratchet :
    (∀ (s : EState) (prices : PriceMap),
      s.bot.global_peak_value ≤ ((should_swap s prices).1).bot.global_peak_value)
    ∧ (∀ (s : EState) (prices : PriceMap) (cc : String) (rp cp : ℚ)
        (csnap : Snapshot), s.bot.current_coin = some cc →
        plookup prices (refCoinOf s.bot) = some rp →
        plookup prices cc = some cp →
        findSnap s.snapshots cc = some csnap → rp ≠ 0 →
        ((should_swap s prices).1).bot.global_peak_value
          = max s.bot.global_peak_value (cp / rp * csnap.units_held))
    ∧ (∀ (s : EState) (l : List (PriceMap × ℚ)),
        s.bot.global_peak_value ≤ (runCycles s l).bot.global_peak_value) :=
  ⟨should_swap_peak_le,
   fun s prices cc rp cp csnap hcc href hcp hcsnap hrp =>
     should_swap_peak_max s prices cc rp cp csnap hcc href hcp hcsnap hrp,
   fun s l => runCycles_peak_le l s⟩

/-- Witness for C5 at a concrete state: the cycle raises the peak from 0 to
`max 0 (100/1 × 1) = 100`, and a two-cycle run never lowers it. -/
theorem peak_value_ratchet_witness :
    ((should_swap ce3S ce3P).1).bot.global_peak_value
      = max ce3S.bot.global_peak_value ((100 : ℚ) / 1 * 1)
    ∧ ce3S.bot.global_peak_value
      ≤ ((should_swap ce3S ce3P).1).bot.global_peak_value
    ∧ ce3S.bot.global_peak_value
      ≤ (runCycles ce3S [(ce3P, 1), (ce3P, 1)]).bot.global_peak_value := by
  refine ⟨?_, peak_value_ratchet.1 ce3S ce3P,
    peak_value_ratchet.2.2 ce3S [(ce3P, 1), (ce3P, 1)]⟩
  have h := peak_value_ratchet.2.1 ce3S ce3P "X" 1 100
    { coin := "X", initial_price := 100, units_held := 1,
      eth_equivalent_value := 100, was_ever_held := true, max_units_reached := 1 }
    rfl (by simp +decide [ce3P, refCoinOf, ce3S, plookup])
    (by simp +decide [ce3P, plookup]) (by simp +decide [ce3S, findSnap])
    (by norm_num)
  simpa using h

/-- C6 (amended): a zero `ratio_then` is not handled uniformly. In
`Bot.calculate_changes` a candidate whose last price is zero makes the whole
computation raise `ZeroDivisionError` (the exception leaves the calculator
and aborts the cycle); in `EnhancedTradingLogic.should_swap` the zero
denominator in the deviation is caught per candidate and that candidate is
simply never selected. -/
theorem zero_ratio_outcome :
    (∀ (b : BotPy) (cur : PriceMap) (cc : String) (ccp lcp : ℚ),
      b.current_coin = some cc → plookup cur cc = some ccp →
      plookup b.last_prices cc = some lcp → ccp ≠ 0 → lcp ≠ 0 →
      (∀ c ∈ b.coins, ¬ c = cc → ∃ cp lp, plookup cur c = some cp ∧
        plookup b.last_prices c = some lp) →
      (∃ d ∈ b.coins, ¬ d = cc ∧ plookup b.last_prices d = some 0) →
      calculate_changes b cur = Except.error PyErr.zeroDivisionError)
    ∧ (∀ (s : EState) (prices : PriceMap) (c : String) (tsnap : Snapshot),
      findSnap s.snapshots c = some tsnap → tsnap.initial_price = 0 →
      ¬ (should_swap s prices).2 = Except.ok (some c)) := by
  constructor
  · intro b cur cc ccp lcp hcc hc hl hccp hlcp hall hex
    have hloop := calcChangesLoop_zero cc cur b.last_prices ccp lcp hccp hlcp
      b.coins hall hex
    simp [calculate_changes, hcc, hc, hl, plookup_nonempty hl, hloop]
  · intro s prices c tsnap hsnap hzero h
    obtain ⟨cc, rp, cp, csnap, d, hcc, href, hcp, hcsnap, hrp, hst, hpass⟩ :=
      should_swap_sel s prices c h
    obtain ⟨hne, pc, tsnap2, estU, q, hpc, hsn2, hdev, hth, hest, hr2, hq, hr3⟩ := hpass
    rw [hsnap] at hsn2
    have htsn : tsnap2 = tsnap := (Option.some.inj hsn2).symm
    subst htsn
    rw [hzero] at hdev
    simp [deviationCalc, divE] at hdev

/-- The bot of the C6 counterexample: candidate Y has last price zero. -/
def ce6B : BotPy := {
  coins := ["X", "Y"],
  threshold := 1 / 20,
  current_coin := some "X",
  initial_coin := some "X",
  last_prices := [("X", 1), ("Y", 0)],
  active_trade_id := none }

/-- Counterexample to C6 as stated: with `ratio_then = 0` for candidate Y,
`Bot.calculate_changes` raises `ZeroDivisionError` instead of producing a
per-candidate insufficient-data outcome. -/
theorem zero_ratio_counterexample :
    calculate_changes ce6B [("X", 1), ("Y", 1)]
      = Except.error PyErr.zeroDivisionError := by
  simp +decide only [calculate_changes, calcChangesLoop, ce6B, plookup, divE,
    List.isEmpty]
  norm_num

/-- The enhanced-logic state of the C6 witness: snapshot Y has a zero initial
price, so its deviation would divide by zero. -/
def ce6S : EState := {
  bot := { current_coin := some "X", reference_coin := some "ETH",
           threshold_percentage := 5, global_threshold_percentage := 10,
           global_peak_value := 0, min_acceptable_value := 0 },
  coins := ["X", "Y"],
  snapshots := [
    { coin := "X", initial_price := 100, units_held := 1,
      eth_equivalent_value := 100, was_ever_held := true, max_units_reached := 1 },
    { coin := "Y", initial_price := 0, units_held := 0,
      eth_equivalent_value := 0, was_ever_held := false, max_units_reached := 0 } ] }

/-- Witness for the amended C6 theorem at concrete inputs. -/
theorem zero_ratio_outcome_witness :
    calculate_changes ce6B [("X", 2), ("Y", 3)]
      = Except.error PyErr.zeroDivisionError
    ∧ ¬ (should_swap ce6S ce3P).2 = Except.ok (some "Y") := by
  constructor
  · refine zero_ratio_outcome.1 ce6B [("X", 2), ("Y", 3)] "X" 2 1 rfl
      (by simp [plookup]) (by simp [ce6B, plookup]) (by norm_num) (by norm_num)
      ?_ ⟨"Y", by simp [ce6B], by decide, by simp [ce6B, plookup]⟩
    intro c hc hne
    simp only [ce6B, List.mem_cons, List.not_mem_nil, or_false] at hc
    rcases hc with rfl | rfl
    · exact absurd rfl hne
    · exact ⟨3, 0, by simp [plookup], by simp [ce6B, plookup]⟩
  · exact zero_ratio_outcome.2 ce6S ce3P "Y"
      { coin := "Y", initial_price := 0, units_held := 0,
        eth_equivalent_value := 0, was_ever_held := false, max_units_reached := 0 }
      (by simp +decide [ce6S, findSnap]) rfl

/-- C7 (amended): a candidate missing from a price map is not silently
excluded by `Bot.calculate_changes` — the whole computation raises
`KeyError` for the missing coin (aborting the cycle); only
`EnhancedTradingLogic.should_swap` skips candidates without a price and
never selects them. -/
theorem missing_candidate_outcome :
    (∀ (b : BotPy) (cur : PriceMap) (cc d : String) (ccp lcp : ℚ),
      b.current_coin = some cc → plookup cur cc = some ccp →
      plookup b.last_prices cc = some lcp → ccp ≠ 0 → lcp ≠ 0 →
      d ∈ b.coins → ¬ d = cc → plookup cur d = none →
      (∀ c ∈ b.coins, ¬ c = cc → ¬ c = d → ∃ cp lp, plookup cur c = some cp ∧
        plookup b.last_prices c = some lp ∧ lp ≠ 0) →
      calculate_changes b cur = Except.error (PyErr.keyError d))
    ∧ (∀ (s : EState) (prices : PriceMap) (c : String),
      plookup prices c = none → ¬ (should_swap s prices).2 = Except.ok (some c)) := by
  constructor
  · intro b cur cc d ccp lcp hcc hc hl hccp hlcp hd hdne hdcur hall
    have hloop := calcChangesLoop_key cc cur b.last_prices ccp lcp hccp hlcp d
      hdcur b.coins hd hdne hall
    simp [calculate_changes, hcc, hc, hl, plookup_nonempty hl, hloop]
  · intro s prices c hnone h
    obtain ⟨cc, rp, cp, csnap, d, hcc, href, hcp, hcsnap, hrp, hst, hpass⟩ :=
      should_swap_sel s prices c h
    obtain ⟨hne, pc, tsnap2, estU, q, hpc, hsn2, hdev, hth, hest, hr2, hq, hr3⟩ := hpass
    rw [hnone] at hpc
    exact Option.noConfusion hpc

/-- The bot of the C7 counterexample. -/
def ce7B : BotPy := {
  coins := ["X", "Y"],
  threshold := 1 / 20,
  current_coin := some "X",
  initial_coin := some "X",
  last_prices := [("X", 1), ("Y", 1)],
  active_trade_id := none }

/-- Counterexample to C7 as stated: with candidate Y absent from the current
price map, `Bot.calculate_changes` raises `KeyError` instead of silently
excluding Y from its output. -/
theorem missing_candidate_counterexample :
    calculate_changes ce7B [("X", 1)] = Except.error (PyErr.keyError "Y") := by
  simp +decide only [calculate_changes, calcChangesLoop, ce7B, plookup, divE,
    List.isEmpty]
  norm_num

/-- Witness for the amended C7 theorem at concrete inputs. -/
theorem missing_candidate_outcome_witness :
    calculate_changes ce7B [("X", 2)] = Except.error (PyErr.keyError "Y")
    ∧ ¬ (should_swap ce3S [("ETH", 1), ("X", 100)]).2 = Except.ok (some "Y") := by
  constructor
  · refine missing_candidate_outcome.1 ce7B [("X", 2)] "X" "Y" 2 1 rfl
      (by simp [plookup]) (by simp [ce7B, plookup]) (by norm_num) (by norm_num)
      (by simp [ce7B]) (by decide) (by simp [plookup]) ?_
    intro c hc hne hnd
    simp only [ce7B, List.mem_cons, List.not_mem_nil, or_false] at hc
    rcases hc with rfl | rfl
    · exact absurd rfl hne
    · exact absurd rfl hnd
  · exact missing_candidate_outcome.2 ce3S [("ETH", 1), ("X", 100)] "Y"
      (by simp [plookup])

theorem setInitialCoin_some (s : RebState) (cc : String)
    (h : s.bot.current_coin = some cc) : setInitialCoin s = s := by
  unfold setInitialCoin
  rw [h]

/-- When the gateway raises or returns no trade id, the evaluation step
leaves the whole state exactly as it received it. -/
theorem evalAndTrade_fail (s2 : RebState) (fetched : PriceMap)
    (gw : Except PyErr (Option Nat))
    (hgw : ∀ tid : Nat, ¬ gw = Except.ok (some tid)) :
    (evalAndTrade s2 fetched gw).1 = s2 := by
  unfold evalAndTrade
  cases s2.bot.current_coin with
  | none => rfl
  | some c =>
    dsimp only
    cases calculate_changes s2.bot fetched with
    | error e => rfl
    | ok changes =>
      dsimp only
      by_cases hch : changes.isEmpty = true
      · rw [if_pos hch]
      · rw [if_neg hch]
        cases find_best_swap s2.bot changes with
        | none => rfl
        | some target =>
          dsimp only
          cases s2.bot.active_trade_id with
          | some tid => rfl
          | none =>
            dsimp only
            cases gw with
            | error e => rfl
            | ok o =>
              cases o with
              | none => rfl
              | some tid => exact absurd rfl (hgw tid)

/-- C8: if trade creation fails (the gateway raises or returns no id), the
cycle performs no state mutation past the pre-evaluation price update — held
asset, active-trade pointer, trade rows and unit-tracking rows are exactly
as before, and the cycle simply ends. -/
theorem trade_failure_no_mutation (s : RebState) (due : Bool) (fetched : PriceMap)
    (gw : Except PyErr (Option Nat)) (cc : String)
    (hgw : ∀ tid : Nat, ¬ gw = Except.ok (some tid))
    (hcc : s.bot.current_coin = some cc) :
    ((check_and_rebalance_bot s due fetched gw).1).bot.current_coin = some cc
    ∧ ((check_and_rebalance_bot s due fetched gw).1).bot.active_trade_id
      = s.bot.active_trade_id
    ∧ ((check_and_rebalance_bot s due fetched gw).1).trades = s.trades
    ∧ ((check_and_rebalance_bot s due fetched gw).1).unit_tracker
      = s.unit_tracker := by
  unfold check_and_rebalance_bot
  by_cases hdue : due = false
  · rw [if_pos hdue]
    exact ⟨hcc, rfl, rfl, rfl⟩
  · rw [if_neg hdue]
    cases hat : s.bot.active_trade_id with
    | some tid =>
      dsimp only
      exact ⟨hcc, hat, rfl, rfl⟩
    | none =>
      dsimp only
      by_cases hf : fetched.isEmpty = true
      · rw [if_pos hf]
        exact ⟨hcc, hat, rfl, rfl⟩
      · rw [if_neg hf]
        have hcc2 : (setInitialCoin (update_prices s fetched)).bot.current_coin
            = some cc := by
          rw [setInitialCoin_some (update_prices s fetched) cc (by
            simp [update_prices, hcc])]
          simp [update_prices, hcc]
        rw [evalAndTrade_fail _ _ _ hgw]
        rw [setInitialCoin_some (update_prices s fetched) cc (by
          simp [update_prices, hcc])]
        refine ⟨by simp [update_prices, hcc], by simp [update_prices, hat], ?_, ?_⟩
        · simp [update_prices]
        · simp [update_prices]

/-- The state of the C8 witness. -/
def tS8 : RebState := {
  bot := c1Bot,
  trades := [],
  unit_tracker := [("X", 5)],
  price_history := [] }

/-- Witness for C8: a due cycle whose gateway returns no trade id leaves the
held coin, the (empty) trade list, the active-trade pointer and the unit
tracker unchanged. -/
theorem trade_failure_no_mutation_witness :
    ((check_and_rebalance_bot tS8 true [("X", 2), ("Y", 6)]
        (Except.ok none)).1).bot.current_coin = some "X"
    ∧ ((check_and_rebalance_bot tS8 true [("X", 2), ("Y", 6)]
        (Except.ok none)).1).bot.active_trade_id = tS8.bot.active_trade_id
    ∧ ((check_and_rebalance_bot tS8 true [("X", 2), ("Y", 6)]
        (Except.ok none)).1).trades = tS8.trades
    ∧ ((check_and_rebalance_bot tS8 true [("X", 2), ("Y", 6)]
        (Except.ok none)).1).unit_tracker = tS8.unit_tracker :=
  trade_failure_no_mutation tS8 true [("X", 2), ("Y", 6)] (Except.ok none) "X"
    (by
      intro tid h
      have := Except.ok.inj h
      exact Option.noConfusion this)
    rfl

/-- C9 (code evidence): a due cycle that starts with a non-null active-trade
pointer creates no swap, but also never clears the pointer — `bot.py:377`
calls `bot.check_active_trade()`, a method class `Bot` does not define, so
the cycle raises `AttributeError` (caught by the per-bot handler) and
returns with the state, including the pointer, byte-for-byte unchanged. -/
theorem active_trade_attribute_error (s : RebState) (fetched : PriceMap)
    (gw : Except PyErr (Option Nat)) (tid : Nat)
    (h : s.bot.active_trade_id = some tid) :
    check_and_rebalance_bot s true fetched gw
      = (s, some (PyErr.attributeError "check_active_trade")) := by
  unfold check_and_rebalance_bot
  rw [h]
  rfl

/-- The state of the C9 witness: active trade 7 whose row is already in the
terminal status `completed`, yet the pointer survives the cycle. -/
def tS9 : RebState := {
  bot := {
    coins := ["X", "Y"],
    threshold := 1 / 20,
    current_coin := some "X",
    initial_coin := some "X",
    last_prices := [("X", 1), ("Y", 2)],
    active_trade_id := some 7 },
  trades := [{ trade_id := 7, from_coin := "Y", to_coin := "X", amount := 1,
               price_change := 1 / 10, status := "completed" }],
  unit_tracker := [],
  price_history := [] }

/-- Witness for C9: the cycle on a bot with an active (already completed)
trade raises `AttributeError` and leaves the pointer set. -/
theorem active_trade_attribute_error_witness :
    check_and_rebalance_bot tS9 true [("X", 2), ("Y", 6)] (Except.ok (some 9))
      = (tS9, some (PyErr.attributeError "check_active_trade")) :=
  active_trade_attribute_error tS9 [("X", 2), ("Y", 6)] (Except.ok (some 9)) 7 rfl

/-- C10: whenever both coins are present in the price map,
`estimate_units_to_receive` raises `NameError` (the body references the
undefined name `status`) and never returns a unit estimate; when either coin
is missing it returns 0. -/
theorem estimate_units_name_error (b : BotPy) (trades : List TradeRec)
    (cfrom cto : String) (amount : ℚ) (prices : PriceMap) :
    ((plookup prices cfrom).isSome → (plookup prices cto).isSome →
      estimate_units_to_receive b trades cfrom cto amount prices
        = Except.error (PyErr.nameError "status"))
    ∧ (((plookup prices cfrom).isNone ∨ (plookup prices cto).isNone) →
      estimate_units_to_receive b trades cfrom cto amount prices
        = Except.ok 0) := by
  constructor
  · intro hf ht
    unfold estimate_units_to_receive
    rcases Option.isSome_iff_exists.mp hf with ⟨vf, hvf⟩
    rcases Option.isSome_iff_exists.mp ht with ⟨vt, hvt⟩
    rw [hvf, hvt]
    dsimp only
    cases trades.find? (fun t => decide (some t.trade_id = b.active_trade_id)) with
    | none => rfl
    | some tr => rfl
  · intro h
    unfold estimate_units_to_receive
    rcases h with h | h
    · rw [Option.isNone_iff_eq_none] at h
      rw [h]
    · rw [Option.isNone_iff_eq_none] at h
      rw [h]
      cases plookup prices cfrom <;> rfl

/-- Witness for C10: with X and Y priced, the call raises `NameError`; with
Z unpriced, it returns 0. -/
theorem estimate_units_name_error_witness :
    estimate_units_to_receive c1Bot [] "X" "Y" 1 [("X", 2), ("Y", 6)]
      = Except.error (PyErr.nameError "status")
    ∧ estimate_units_to_receive c1Bot [] "X" "Z" 1 [("X", 2), ("Y", 6)]
      = Except.ok 0 := by
  constructor
  · exact (estimate_units_name_error c1Bot [] "X" "Y" 1 [("X", 2), ("Y", 6)]).1
      (by simp [plookup]) (by simp [plookup])
  · exact (estimate_units_name_error c1Bot [] "X" "Z" 1 [("X", 2), ("Y", 6)]).2
      (Or.inr (by simp +decide [plookup]))
